import Mathlib

/-!
Shallow embedding of the design-analysis pipeline in `src/main.py`
(`count_keyword_matches`, `calculate_score`, `calculate_category_scores`,
`determine_severity`, `extract_issues`, `extract_suggestions`,
`format_output`, `analyze_text`) together with theorems settling the
specification claims.

Modelling conventions:
* Python strings are Lean `String`s; internal scanning works on `List Char`.
* `str.lower()` is modelled by mapping `Char.toLower` (ASCII case folding;
  every non-ASCII character occurring in the keyword tables is already
  lower case, so this is faithful on the inputs the program handles).
* The regex word class `\w` is modelled by `isWordChar`: ASCII
  alphanumerics, the underscore, and all non-ASCII codepoints (every
  non-ASCII character in the keyword tables is an accented letter, which
  Python's `\w` matches).
* Python's float expression `int(50 + ratio * 50)` with
  `ratio = p / (p + n)` is modelled by exact arithmetic, i.e.
  `50 + (50 * p) / (p + n)` with natural floor division.
-/

set_option maxRecDepth 8192

/-- Whitespace characters of the regex class `\s` (ASCII range). -/
def isSpace (c : Char) : Bool :=
  c == ' ' || c == '\t' || c == '\n' || c == '\r' || c == '\x0b' || c == '\x0c'

/-- Sentence terminators, the regex class `[.!?]`. -/
def termChar (c : Char) : Bool :=
  c == '.' || c == '!' || c == '?'

/-- Characters of the regex class `[:\s]` used by the suggestion patterns. -/
def sepChar (c : Char) : Bool :=
  c == ':' || isSpace c

/-- Word characters for the regex `\b` boundary (Python `\w`): ASCII
alphanumerics, underscore, and (conservatively) all non-ASCII codepoints. -/
def isWordChar (c : Char) : Bool :=
  c.isAlphanum || c == '_' || decide (128 ≤ c.toNat)

/-- Word-character test lifted to an optional character; `none` stands for
the edge of the string and is never a word character. -/
def isWordOpt : Option Char → Bool
  | none => false
  | some c => isWordChar c

/-- Regex `\b`: a word boundary sits between two positions exactly when
one side is a word character and the other is not (or is the string edge). -/
def atBoundary (a b : Option Char) : Bool :=
  isWordOpt a != isWordOpt b

/-- Python's `needle in haystack` substring test. -/
def containsSub (hay needle : List Char) : Bool :=
  match hay with
  | [] => needle.isEmpty
  | _ :: t => needle.isPrefixOf hay || containsSub t needle

/-- Python's `str.strip()`: drop leading and trailing whitespace. -/
def stripChars (l : List Char) : List Char :=
  ((l.dropWhile isSpace).reverse.dropWhile isSpace).reverse

/-- Python's `str.capitalize()`: first character upper-cased, rest lower-cased. -/
def capitalizePy : List Char → List Char
  | [] => []
  | c :: rest => c.toUpper :: rest.map Char.toLower

/-- Helper for `pyTitle`: upper-case a character that follows a non-letter,
lower-case one that follows a letter. -/
def pyTitleAux : Bool → List Char → List Char
  | _, [] => []
  | prevAlpha, c :: rest =>
    (if prevAlpha then c.toLower else c.toUpper) :: pyTitleAux c.isAlpha rest

/-- Python's `str.title()` (ASCII approximation); only used by
`format_output` for category keys missing from `category_names`, which
never happens for the four fixed categories. -/
def pyTitle (s : String) : String :=
  String.mk (pyTitleAux false s.toList)

/-- Head-of-list whitespace test used by the sentence splitter. -/
def headIsSpace : List Char → Bool
  | [] => false
  | d :: _ => isSpace d

/-- CATEGORY_KEYWORDS table from `src/main.py` (insertion order preserved,
as Python dicts preserve it). -/
def CATEGORY_KEYWORDS : List (String × List String) :=
  [("contrast", [("contraste"), ("legibilidad"), ("contrast"), ("readability")]),
   ("spacing", [("espaciado"), ("padding"), ("margin"), ("spacing"), ("espacio")]),
   ("alignment", [("alineación"), ("grid"), ("alignment"), ("alinear"), ("centrado")]),
   ("hierarchy", [("jerarquía"), ("tamaño"), ("hierarchy"), ("tamaños"), ("size"), ("peso")])]

/-- SEVERITY_KEYWORDS["critical"] from `src/main.py`. -/
def SEVERITY_KEYWORDS_critical : List String :=
  [("crítico"), ("malo"), ("terrible"), ("grave"), ("critical"), ("bad"), ("poor")]

/-- SEVERITY_KEYWORDS["warning"] from `src/main.py`. -/
def SEVERITY_KEYWORDS_warning : List String :=
  [("mejorable"), ("necesita"), ("debería"), ("warning"), ("improve"), ("needs")]

/-- POSITIVE_WORDS from `src/main.py`. -/
def POSITIVE_WORDS : List String :=
  [("bien"), ("bueno"), ("correcto"), ("excelente"), ("perfecto"), ("good"),
   ("excellent"), ("correct"), ("great"), ("nice"), ("properly"), ("adecuado")]

/-- NEGATIVE_WORDS from `src/main.py`. -/
def NEGATIVE_WORDS : List String :=
  [("mal"), ("malo"), ("problema"), ("issue"), ("error"), ("falta"), ("bad"),
   ("wrong"), ("problem"), ("missing"), ("poor"), ("incorrect")]

/-- Counts the positions in the text at which the keyword occurs with a
word boundary on each side — the matches of `re.findall(r'\b'+kw+r'\b', text)`.
`prev` is the character just before the current position (`none` at the
start).  Since every keyword character is a word character, boundary-valid
occurrences can never overlap, so counting all valid positions agrees with
`re.findall`'s left-to-right non-overlapping count. -/
def countOccAux (kw : List Char) : Option Char → List Char → Nat
  | _, [] => 0
  | prev, c :: rest =>
    (if kw.isPrefixOf (c :: rest)
        && atBoundary prev (some c)
        && atBoundary kw.getLast? (((c :: rest).drop kw.length).head?)
     then 1 else 0)
    + countOccAux kw (some c) rest

/-- Number of whole-word occurrences of `kw` in `l`. -/
def countOcc (kw : List Char) (l : List Char) : Nat :=
  countOccAux kw none l

/-- count_keyword_matches from `src/main.py`: sum over the keywords of the
whole-word occurrence counts in the lower-cased text. -/
def count_keyword_matches (text : String) (keywords : List String) : Nat :=
  let text_lower := text.toList.map Char.toLower
  keywords.foldl (fun count kw => count + countOcc (kw.toList.map Char.toLower) text_lower) 0

/-- calculate_score from `src/main.py`: base 70, +10 per positive word,
-10 per negative word, clamped to [0, 100]. -/
def calculate_score (text : String) : Int :=
  let positive_count := count_keyword_matches text POSITIVE_WORDS
  let negative_count := count_keyword_matches text NEGATIVE_WORDS
  let score : Int := 70 + (positive_count : Int) * 10 - (negative_count : Int) * 10
  max 0 (min 100 score)

/-- calculate_category_scores from `src/main.py`.  The Python dict is
modelled as an association list in insertion order.  `int(50 + ratio*50)`
is modelled with exact arithmetic as `50 + (50 * p) / (p + n)`. -/
def calculate_category_scores (text : String) : List (String × Nat) :=
  CATEGORY_KEYWORDS.map fun ck =>
    let mentions := count_keyword_matches text ck.2
    if mentions = 0 then
      (ck.1, 75)
    else
      let positive_nearby := count_keyword_matches text POSITIVE_WORDS
      let negative_nearby := count_keyword_matches text NEGATIVE_WORDS
      let base_score :=
        if 0 < positive_nearby + negative_nearby then
          50 + (50 * positive_nearby) / (positive_nearby + negative_nearby)
        else 70
      (ck.1, max 0 (min 100 base_score))

/-- determine_severity from `src/main.py`: first matching list wins,
checking the critical keywords, then the warning keywords, else "info";
each test is case-insensitive substring containment. -/
def determine_severity (sentence : String) : String :=
  let sentence_lower := sentence.toList.map Char.toLower
  if SEVERITY_KEYWORDS_critical.any (fun w => containsSub sentence_lower w.toList) then ("critical")
  else if SEVERITY_KEYWORDS_warning.any (fun w => containsSub sentence_lower w.toList) then ("warning")
  else ("info")

/-- Fuelled worker for `splitSentences` (structural recursion on the fuel
so that the definition reduces in the kernel; every step consumes at least
one character, so fuel equal to the text length never runs out). -/
def splitSentencesF : Nat → List Char → List (List Char)
  | 0, l => [l]
  | _ + 1, [] => [[]]
  | fuel + 1, c :: rest =>
    if termChar c && headIsSpace rest then
      [] :: splitSentencesF fuel (rest.dropWhile isSpace)
    else
      (splitSentencesF fuel rest).modifyHead (c :: ·)

/-- Sentence splitting, `re.split(r'[.!?]\s+', text)`: a separator is one
terminator character followed by a maximal non-empty whitespace run; both
are consumed. -/
def splitSentences (l : List Char) : List (List Char) :=
  splitSentencesF l.length l

/-- Issue record from `src/main.py` (pydantic model `Issue`). -/
structure Issue where
  severity : String
  text : String
deriving DecidableEq, Repr

/-- extract_issues from `src/main.py`: split into sentences, strip each,
skip empties, flag sentences containing (as a case-insensitive substring)
any negative or severity keyword, and classify with `determine_severity`.
The Python append loop is modelled with `filterMap`. -/
def extract_issues (text : String) : List Issue :=
  (splitSentences text.toList).filterMap fun raw =>
    let sentence := stripChars raw
    if sentence.isEmpty then none
    else
      let sentence_lower := sentence.map Char.toLower
      let has_negative :=
        (NEGATIVE_WORDS ++ SEVERITY_KEYWORDS_critical ++ SEVERITY_KEYWORDS_warning).any
          (fun w => containsSub sentence_lower w.toList)
      if has_negative then
        some { severity := determine_severity (String.mk sentence), text := String.mk sentence }
      else none

/-- Alternatives of the first suggestion regex (Spanish recommendation
phrasing) in `extract_suggestions`. -/
def pattern1_alts : List String :=
  [("se recomienda"), ("recomendación"), ("sugiero"), ("sugerencia"), ("debería"),
   ("podría mejorar"), ("considera"), ("intenta")]

/-- Alternatives of the second suggestion regex (English recommendation
phrasing). -/
def pattern2_alts : List String :=
  [("recommend"), ("suggestion"), ("should"), ("could improve"), ("consider"), ("try")]

/-- Alternatives of the third suggestion regex (imperative improvement
phrasing). -/
def pattern3_alts : List String :=
  [("mejorar"), ("improve"), ("fix"), ("arreglar"), ("cambiar"), ("change")]

/-- The three suggestion regexes, in application order. -/
def suggestion_patterns : List (List String) :=
  [pattern1_alts, pattern2_alts, pattern3_alts]

/-- Matches the tail `[:\s]+([^.!?]+[.!?]?)` of a suggestion regex against
`rest0` (the text following a matched alternative).  Returns the capture
group together with the number of characters consumed, or `none` when the
tail cannot match here.  `[:\s]+` is greedy; when the maximal separator
run is followed by a terminator (so `[^.!?]+` cannot start), the engine
backtracks one separator character into the capture, exactly as Python's
backtracking regex engine does. -/
def matchTail (rest0 : List Char) : Option (List Char × Nat) :=
  let k := (rest0.takeWhile sepChar).length
  if k = 0 then none
  else
    let restk := rest0.drop k
    let m := (restk.takeWhile (fun c => !termChar c)).length
    if 0 < m then
      let cap := restk.take m
      match (restk.drop m).head? with
      | some t => if termChar t then some (cap ++ [t], k + m + 1) else some (cap, k + m)
      | none => some (cap, k + m)
    else if 2 ≤ k then
      let cap1 := (rest0.drop (k - 1)).take 1
      match restk.head? with
      | some t => some (cap1 ++ [t], k + 1)
      | none => some (cap1, k)
    else none

/-- Tries the alternatives of a suggestion regex in order at the current
position; an alternative that matches literally but whose tail fails is
backtracked, moving on to the next alternative. -/
def matchAlt (alts : List (List Char)) (s : List Char) : Option (List Char × Nat) :=
  match alts with
  | [] => none
  | a :: rest =>
    if a.isPrefixOf s then
      match matchTail (s.drop a.length) with
      | some (cap, n) => some (cap, a.length + n)
      | none => matchAlt rest s
    else matchAlt rest s

/-- Fuelled scan of `re.findall`: try to match at each position from left
to right; on a match record the capture and resume after the whole match,
otherwise advance one character.  Every match consumes at least two
characters (a non-empty alternative plus a separator), so fuel equal to
the text length never runs out. -/
def scanPatternAux (alts : List (List Char)) : Nat → List Char → List (List Char)
  | 0, _ => []
  | _, [] => []
  | fuel + 1, c :: rest =>
    match matchAlt alts (c :: rest) with
    | some (cap, n) => cap :: scanPatternAux alts fuel ((c :: rest).drop n)
    | none => scanPatternAux alts fuel rest

/-- `re.findall(pattern, text)` for one suggestion regex: the list of
capture groups of its non-overlapping matches, left to right. -/
def scanPattern (alts : List (List Char)) (s : List Char) : List (List Char) :=
  scanPatternAux alts s.length s

/-- `match.strip().capitalize()` applied to a raw regex capture. -/
def cleanOf (m : List Char) : String :=
  String.mk (capitalizePy (stripChars m))

/-- One step of the pattern-stage accumulation in `extract_suggestions`:
clean the match, then append it unless it is empty or already present. -/
def addClean (acc : List String) (m : List Char) : List String :=
  let clean_suggestion := cleanOf m
  if clean_suggestion ≠ "" ∧ clean_suggestion ∉ acc then acc ++ [clean_suggestion] else acc

/-- Pattern stage of `extract_suggestions`: run the three regexes over the
lower-cased text in order, accumulating cleaned, deduplicated captures. -/
def pattern_stage (text : String) : List String :=
  let text_lower := text.toList.map Char.toLower
  suggestion_patterns.foldl
    (fun acc alts => (scanPattern (alts.map String.toList) text_lower).foldl addClean acc) []

/-- improvement_keywords from `extract_suggestions` in `src/main.py`. -/
def improvement_keywords : List String :=
  [("mejorar"), ("cambiar"), ("ajustar"), ("corregir"), ("improve"), ("change"),
   ("adjust"), ("fix")]

/-- Fallback loop of `extract_suggestions`: keep capitalized stripped
sentences of length > 10 that contain an improvement keyword, stopping as
soon as five suggestions have been collected. -/
def fallback_loop : List (List Char) → List String → List String
  | [], acc => acc
  | s :: rest, acc =>
    if improvement_keywords.any (fun kw => containsSub (s.map Char.toLower) kw.toList) then
      let clean := String.mk (capitalizePy (stripChars s))
      if clean ≠ "" ∧ 10 < clean.length then
        let acc' := acc ++ [clean]
        if 5 ≤ acc'.length then acc' else fallback_loop rest acc'
      else fallback_loop rest acc
    else fallback_loop rest acc

/-- extract_suggestions from `src/main.py`: pattern stage, then (only when
it produced nothing) the sentence fallback, truncated to five entries. -/
def extract_suggestions (text : String) : List String :=
  let suggestions := pattern_stage text
  let suggestions :=
    if suggestions.isEmpty then fallback_loop (splitSentences text.toList) [] else suggestions
  suggestions.take 5

/-- category_names table inside `format_output`. -/
def category_names : List (String × String) :=
  [("contrast", ("🎨 Contraste")),
   ("spacing", ("📏 Espaciado")),
   ("alignment", ("📐 Alineación")),
   ("hierarchy", ("🏗️ Jerarquía"))]

/-- Renders the numbered suggestion lines, `enumerate(suggestions, 1)`. -/
def numberLines : Nat → List String → String
  | _, [] => ""
  | i, s :: rest => toString i ++ (". ") ++ s ++ ("\n") ++ numberLines (i + 1) rest

/-- Renders one issue-severity subsection: header plus one bullet line per
issue of that severity. -/
def issueLines (issues : List Issue) : String :=
  issues.foldl (fun out i => out ++ ("- ") ++ i.text ++ ("\n")) ""

/-- format_output from `src/main.py`: markdown report with a tiered score
emoji, category bars, issues grouped by severity (sections omitted when
empty), and numbered suggestions. -/
def format_output (score : Int) (categories : List (String × Nat)) (issues : List Issue)
    (suggestions : List String) : String :=
  let score_emoji :=
    if 90 ≤ score then ("🌟")
    else if 75 ≤ score then ("✅")
    else if 60 ≤ score then ("⚠️")
    else ("🔴")
  let output := ("# 📊 ANÁLISIS DE DISEÑO\n\n")
  let output := output ++ ("## ") ++ score_emoji ++ (" Score General: **") ++ toString score ++ ("/100**\n\n")
  let output := output ++ ("### 📈 Scores por Categoría\n\n")
  let output := categories.foldl
    (fun out kv =>
      let name := ((category_names.lookup kv.1).getD (pyTitle kv.1))
      let bar := String.mk (List.replicate (kv.2 / 10) '█')
        ++ String.mk (List.replicate (10 - kv.2 / 10) '░')
      out ++ ("**") ++ name ++ (":** ") ++ bar ++ (" `") ++ toString kv.2 ++ ("/100`\n"))
    output
  let output := output ++ ("\n")
  let output :=
    if issues.isEmpty then output
    else
      let critical := issues.filter (fun i => i.severity == ("critical"))
      let warnings := issues.filter (fun i => i.severity == ("warning"))
      let info := issues.filter (fun i => i.severity == ("info"))
      let output := output ++ ("### ⚠️ Issues Encontrados\n\n")
      let output :=
        if critical.isEmpty then output
        else output ++ ("#### 🔴 CRÍTICO\n") ++ issueLines critical ++ ("\n")
      let output :=
        if warnings.isEmpty then output
        else output ++ ("#### ⚠️ ADVERTENCIAS\n") ++ issueLines warnings ++ ("\n")
      let output :=
        if info.isEmpty then output
        else output ++ ("#### ℹ️ INFORMACIÓN\n") ++ issueLines info ++ ("\n")
      output
  let output :=
    if suggestions.isEmpty then output
    else output ++ ("### 💡 Sugerencias de Mejora\n\n") ++ numberLines 1 suggestions ++ ("\n")
  output ++ ("---\n") ++ ("*Análisis generado por Design Analysis API*")

/-- Response record of the `/analyze` endpoint (pydantic `AnalysisOutput`). -/
structure AnalysisOutput where
  score : Int
  categories : List (String × Nat)
  issues : List Issue
  suggestions : List String
  formatted_output : String
deriving DecidableEq, Repr

/-- analyze_text from `src/main.py`: the whole pipeline on one input. -/
def analyze_text (analysis_text : String) : AnalysisOutput :=
  let score := calculate_score analysis_text
  let categories := calculate_category_scores analysis_text
  let issues := extract_issues analysis_text
  let suggestions := extract_suggestions analysis_text
  let formatted := format_output score categories issues suggestions
  { score := score, categories := categories, issues := issues,
    suggestions := suggestions, formatted_output := formatted }

/-- Fuelled worker for `specWordTokens` (fuel equal to the text length is
always enough, since every step consumes at least one character). -/
def specWordTokensF : Nat → List Char → List (List Char)
  | 0, _ => []
  | _ + 1, [] => []
  | fuel + 1, c :: rest =>
    if isWordChar c then
      (c :: rest.takeWhile isWordChar) :: specWordTokensF fuel (rest.dropWhile isWordChar)
    else specWordTokensF fuel rest

/-- Specification-side tokenizer: the maximal word-character runs of a
text, in order.  Used to state that keyword matching is whole-word: a
single-word keyword is counted once per token equal to it, so it can
never match inside a larger word. -/
def specWordTokens (l : List Char) : List (List Char) :=
  specWordTokensF l.length l

/-- Specification-side deduplication: drop empty strings, keep the first
occurrence of every other string, preserving first-seen order. -/
def specDedupFirst : List String → List String
  | [] => []
  | x :: xs =>
    if x = "" then specDedupFirst xs
    else x :: specDedupFirst (xs.filter (fun y => y != x))
termination_by l => l.length
decreasing_by
  · simp
  · simp only [List.length_cons]
    exact Nat.lt_succ_of_le (List.length_filter_le _ _)

/-- Specification-side view of the pattern stage input: the captures of
the three suggestion regexes over the lower-cased text, concatenated in
application order, each stripped and capitalized. -/
def specCleanedMatches (text : String) : List String :=
  let tl := text.toList.map Char.toLower
  (scanPattern (pattern1_alts.map String.toList) tl
    ++ scanPattern (pattern2_alts.map String.toList) tl
    ++ scanPattern (pattern3_alts.map String.toList) tl).map cleanOf

/-- Specification-side view of the fallback candidates: sentences that
contain an improvement keyword (case-insensitive substring), capitalized,
kept when longer than ten characters. -/
def specQual (sentences : List (List Char)) : List String :=
  ((sentences.filter
      (fun s => improvement_keywords.any (fun kw => containsSub (s.map Char.toLower) kw.toList))).map
    (fun s => String.mk (capitalizePy (stripChars s)))).filter
    (fun c => decide (c ≠ "" ∧ 10 < c.length))

/-- Specification-side fallback stage: the first five qualifying sentences. -/
def specFallback (text : String) : List String :=
  (specQual (splitSentences text.toList)).take 5

/-- Holds when no sentence-terminator character is immediately followed by
a whitespace character; every sentence produced by `splitSentences`
satisfies this, i.e. the punctuation at a split point is always consumed. -/
def noPunctSpace : List Char → Bool
  | c :: d :: rest => !(termChar c && isSpace d) && noPunctSpace (d :: rest)
  | _ => true

/-- The scenario input of claim C3. -/
def c3text : String := "The contrast is good but the spacing is bad."

/-- The input of the claim C4 counterexample: its only terminator sits at
the end of the text, not followed by whitespace. -/
def c4text : String := "It is bad."

/-- The input witnessing claims C7 and C10 style "info" fallthroughs. -/
def c10text : String := "Everything looks normal"

/-- Clamping from below then above agrees with clamping above then below. -/
theorem clamp_comm (S : Int) : max 0 (min 100 S) = min 100 (max 0 S) := by
  omega

/-- Folding addition of a function over a list sums its images. -/
theorem foldl_add_sum {α : Type} (g : α → Nat) :
    ∀ (ks : List α) (n : Nat), ks.foldl (fun a k => a + g k) n = n + (ks.map g).sum := by
  intro ks
  induction ks with
  | nil => intro n; simp
  | cons k rest ih => intro n; simp [ih, Nat.add_assoc]

/-- The fuelled tokenizer is fuel-independent once the fuel covers the
input length. -/
theorem specWordTokensF_congr :
    ∀ (a b : Nat) (l : List Char), l.length ≤ a → l.length ≤ b →
      specWordTokensF a l = specWordTokensF b l := by
  intro a
  induction a with
  | zero =>
    intro b l ha _
    have hnil : l = [] := List.length_eq_zero.mp (Nat.le_zero.mp ha)
    subst hnil
    cases b <;> rfl
  | succ a ih =>
    intro b l ha hb
    cases l with
    | nil => cases b <;> rfl
    | cons c rest =>
      cases b with
      | zero => exact absurd hb (by simp)
      | succ b =>
        have ha' : rest.length ≤ a := by simpa [Nat.succ_le_succ_iff] using ha
        have hb' : rest.length ≤ b := by simpa [Nat.succ_le_succ_iff] using hb
        have hda : (rest.dropWhile isWordChar).length ≤ a :=
          le_trans (List.dropWhile_sublist _).length_le ha'
        have hdb : (rest.dropWhile isWordChar).length ≤ b :=
          le_trans (List.dropWhile_sublist _).length_le hb'
        by_cases hc : isWordChar c
        · simp [specWordTokensF, hc, ih b _ hda hdb]
        · simp [specWordTokensF, hc, ih b _ ha' hb']

/-- Unfolding equation of the tokenizer on a cons cell. -/
theorem specWordTokens_cons (c : Char) (rest : List Char) :
    specWordTokens (c :: rest) =
      if isWordChar c then
        (c :: rest.takeWhile isWordChar) :: specWordTokens (rest.dropWhile isWordChar)
      else specWordTokens rest := by
  show specWordTokensF (rest.length + 1) (c :: rest) = _
  by_cases hc : isWordChar c
  · simp only [specWordTokensF, hc, if_true]
    rw [specWordTokensF_congr rest.length (rest.dropWhile isWordChar).length _
      (le_trans (List.dropWhile_sublist _).length_le (le_refl _)) (le_refl _)]
    rfl
  · simp only [specWordTokensF, hc, if_false]
    rfl

/-- Reduction of `isWordOpt` on `some`. -/
theorem isWordOpt_some (c : Char) : isWordOpt (some c) = isWordChar c := rfl

/-- Reduction of `isWordOpt` on `none`. -/
theorem isWordOpt_none : isWordOpt none = false := rfl

/-- The last character of a non-empty all-word-character keyword is a word
character. -/
theorem all_getLast_isWord (kw : List Char) (hne : kw.isEmpty = false)
    (hw : kw.all isWordChar = true) : isWordOpt kw.getLast? = true := by
  cases kw with
  | nil => simp at hne
  | cons k kw' =>
    rw [List.getLast?_eq_getLast _ (by simp)]
    have hmem : (k :: kw').getLast (by simp) ∈ k :: kw' := List.getLast_mem _
    simpa [isWordOpt_some] using List.all_eq_true.mp hw _ hmem

/-- A keyword made of word characters occurs as a prefix with a non-word
character (or the string edge) right after it exactly when it is the
maximal word-character run at this position. -/
theorem prefix_takeWhile_iff :
    ∀ (kw : List Char), kw.all isWordChar = true →
      ∀ s : List Char,
        ((kw.isPrefixOf s && !isWordOpt ((s.drop kw.length).head?)) = true
          ↔ s.takeWhile isWordChar = kw) := by
  intro kw
  induction kw with
  | nil =>
    intro _ s
    cases s with
    | nil => simp [isWordOpt]
    | cons c s' =>
      by_cases hc : isWordChar c
      · simp [hc, List.takeWhile_cons_of_pos, isWordOpt]
      · simp [hc, List.takeWhile_cons_of_neg, isWordOpt]
  | cons k kw' ih =>
    intro hw s
    have hk : isWordChar k = true := by
      simp only [List.all_cons, Bool.and_eq_true] at hw
      exact hw.1
    have hw' : kw'.all isWordChar = true := by
      simp only [List.all_cons, Bool.and_eq_true] at hw
      exact hw.2
    cases s with
    | nil => simp [List.isPrefixOf]
    | cons c s' =>
      by_cases hkc : k = c
      · subst hkc
        rw [List.takeWhile_cons_of_pos hk]
        have hstep := ih hw' s'
        simp only [List.isPrefixOf, beq_self_eq_true, Bool.true_and, List.length_cons,
          List.drop_succ_cons, List.cons.injEq, true_and]
        exact hstep
      · have hbeq : (k == c) = false := by simp [hkc]
        by_cases hc : isWordChar c
        · rw [List.takeWhile_cons_of_pos hc]
          simp only [List.isPrefixOf, hbeq, Bool.false_and, Bool.false_eq_true, false_iff,
            List.cons.injEq, not_and]
          exact fun h => absurd h.symm hkc
        · rw [List.takeWhile_cons_of_neg hc]
          simp [List.isPrefixOf, hbeq]

/-- Core whole-word matching lemma: for a non-empty keyword made of word
characters, boundary-valid occurrence counting equals counting the word
tokens equal to the keyword.  The `prev` state selects whether the leading
word run of `l` is a continuation of a preceding word (and hence skipped). -/
theorem countOccAux_tokens (kw : List Char) (hne : kw.isEmpty = false)
    (hw : kw.all isWordChar = true) :
    ∀ (l : List Char) (prev : Option Char),
      countOccAux kw prev l =
        List.count kw (specWordTokens (if isWordOpt prev = true then l.dropWhile isWordChar else l)) := by
  intro l
  induction l with
  | nil =>
    intro prev
    cases hp : isWordOpt prev <;>
      simp [countOccAux, specWordTokens, specWordTokensF, hp]
  | cons c rest ih =>
    intro prev
    by_cases hc : isWordChar c = true
    · have hrec : countOccAux kw (some c) rest
          = List.count kw (specWordTokens (rest.dropWhile isWordChar)) := by
        have h := ih (some c)
        rwa [if_pos (by rw [isWordOpt_some]; exact hc)] at h
      by_cases hp : isWordOpt prev = true
      · have hcond0 : (kw.isPrefixOf (c :: rest)
            && atBoundary prev (some c)
            && atBoundary kw.getLast? (((c :: rest).drop kw.length).head?)) = false := by
          have hb : atBoundary prev (some c) = false := by
            simp [atBoundary, isWordOpt_some, hp, hc]
          rw [hb]
          simp
        simp only [countOccAux, hcond0, Bool.false_eq_true, if_false, Nat.zero_add]
        rw [if_pos hp, List.dropWhile_cons_of_pos hc]
        exact hrec
      · have hp' : isWordOpt prev = false := by
          cases hval : isWordOpt prev
          · rfl
          · exact absurd hval hp
        have hb : atBoundary prev (some c) = true := by
          simp [atBoundary, isWordOpt_some, hp', hc]
        have hafter : atBoundary kw.getLast? (((c :: rest).drop kw.length).head?)
            = !isWordOpt (((c :: rest).drop kw.length).head?) := by
          rw [atBoundary, all_getLast_isWord kw hne hw]
          cases isWordOpt (((c :: rest).drop kw.length).head?) <;> rfl
        rw [if_neg hp]
        rw [specWordTokens_cons, if_pos hc, List.count_cons]
        simp only [countOccAux, hb, Bool.and_true, hafter]
        rw [hrec]
        have hiff := prefix_takeWhile_iff kw hw (c :: rest)
        rw [List.takeWhile_cons_of_pos hc] at hiff
        by_cases hEq : c :: rest.takeWhile isWordChar = kw
        · have hcond : (kw.isPrefixOf (c :: rest)
              && !isWordOpt (((c :: rest).drop kw.length).head?)) = true := hiff.mpr hEq
          have hbeq : (c :: rest.takeWhile isWordChar == kw) = true := by
            rw [beq_iff_eq]
            exact hEq
          rw [hcond, hbeq]
          simp [Nat.add_comm]
        · have hcond : (kw.isPrefixOf (c :: rest)
              && !isWordOpt (((c :: rest).drop kw.length).head?)) = false := by
            cases hval : (kw.isPrefixOf (c :: rest)
                && !isWordOpt (((c :: rest).drop kw.length).head?))
            · rfl
            · exact absurd (hiff.mp hval) hEq
          have hbeq : (c :: rest.takeWhile isWordChar == kw) = false := by
            rw [beq_eq_false_iff_ne]
            exact hEq
          rw [hcond, hbeq]
          simp
    · have hpre : kw.isPrefixOf (c :: rest) = false := by
        cases kw with
        | nil => simp at hne
        | cons k kw' =>
          have hk : isWordChar k = true := by
            simp only [List.all_cons, Bool.and_eq_true] at hw
            exact hw.1
          have hkc : (k == c) = false := by
            rw [beq_eq_false_iff_ne]
            intro h
            subst h
            exact hc hk
          simp [List.isPrefixOf, hkc]
      have hrec : countOccAux kw (some c) rest = List.count kw (specWordTokens rest) := by
        have h := ih (some c)
        rwa [if_neg (by rw [isWordOpt_some]; exact hc)] at h
      simp only [countOccAux, hpre, Bool.false_and, Bool.false_eq_true, if_false, Nat.zero_add]
      rw [hrec]
      by_cases hp : isWordOpt prev = true
      · rw [if_pos hp, List.dropWhile_cons_of_neg hc, specWordTokens_cons, if_neg hc]
      · rw [if_neg hp, specWordTokens_cons, if_neg hc]

/-- Whole-word occurrence counting is token counting, for any non-empty
keyword made of word characters. -/
theorem countOcc_tokens (kw l : List Char) (hne : kw.isEmpty = false)
    (hw : kw.all isWordChar = true) :
    countOcc kw l = List.count kw (specWordTokens l) := by
  have h := countOccAux_tokens kw hne hw l none
  simpa [countOcc, isWordOpt] using h

/-- C5: keyword counting is case-insensitive and whole-word only: the
total is the independent sum of per-keyword whole-word counts on the
lower-cased text; for any non-empty keyword made of word characters the
count equals the number of word tokens equal to it (so a keyword never
matches inside a larger word); "badge" yields 0 for "bad" while
"bad design" yields exactly 1, matching is case-insensitive, and a
multi-word keyword matches only as its exact standalone phrase. -/
theorem claim5_whole_word_matching :
    (∀ (text : String) (keywords : List String),
      count_keyword_matches text keywords
        = (keywords.map (fun kw =>
            countOcc (kw.toList.map Char.toLower) (text.toList.map Char.toLower))).sum)
    ∧ (∀ kw l : List Char, kw.isEmpty = false → kw.all isWordChar = true →
        countOcc kw l = List.count kw (specWordTokens l))
    ∧ count_keyword_matches ("badge") [("bad")] = 0
    ∧ count_keyword_matches ("bad design") [("bad")] = 1
    ∧ count_keyword_matches ("BAD Design") [("bad")] = 1
    ∧ countOcc (("could improve").toList) (("you could improve it").toList) = 1
    ∧ countOcc (("could improve").toList) (("it could improvement").toList) = 0 := by
  refine ⟨?_, fun kw l hne hw => countOcc_tokens kw l hne hw,
    by decide, by decide, by decide, by decide, by decide⟩
  intro text keywords
  simp only [count_keyword_matches]
  rw [foldl_add_sum]
  simp

/-- Witness for C5: the whole-word hypotheses are satisfiable, e.g. for
the keyword "bad" in "my bad day". -/
theorem claim5_whole_word_matching_witness :
    (("bad").toList.isEmpty = false)
    ∧ (("bad").toList.all isWordChar = true)
    ∧ countOcc (("bad").toList) (("my bad day").toList)
        = List.count (("bad").toList) (specWordTokens (("my bad day").toList)) :=
  ⟨by decide, by decide,
    claim5_whole_word_matching.2.1 (("bad").toList) (("my bad day").toList)
      (by decide) (by decide)⟩

/-- The pattern stage is one fold of `addClean` over the concatenated
captures of the three regexes, in application order. -/
theorem pattern_stage_eq_foldl (text : String) :
    pattern_stage text
      = (scanPattern (pattern1_alts.map String.toList) (text.toList.map Char.toLower)
          ++ scanPattern (pattern2_alts.map String.toList) (text.toList.map Char.toLower)
          ++ scanPattern (pattern3_alts.map String.toList) (text.toList.map Char.toLower)).foldl
            addClean [] := by
  simp [pattern_stage, suggestion_patterns, List.foldl_append]

/-- Folding `addClean` performs first-seen deduplication relative to the
already accumulated suggestions. -/
theorem foldl_addClean_spec :
    ∀ (ms : List (List Char)) (acc : List String),
      ms.foldl addClean acc
        = acc ++ specDedupFirst ((ms.map cleanOf).filter (fun y => decide (y ∉ acc))) := by
  intro ms
  induction ms with
  | nil => intro acc; simp [specDedupFirst]
  | cons m rest ih =>
    intro acc
    rw [List.foldl_cons]
    by_cases hc : cleanOf m = ""
    · have haddc : addClean acc m = acc := by simp [addClean, hc]
      rw [haddc, ih acc]
      congr 1
      rw [List.map_cons, List.filter_cons]
      cases hdec : decide ((cleanOf m) ∉ acc) with
      | false => simp
      | true => simp [specDedupFirst, hc]
    · by_cases hmem : cleanOf m ∈ acc
      · have haddc : addClean acc m = acc := by simp [addClean, hmem]
        rw [haddc, ih acc]
        congr 1
        rw [List.map_cons, List.filter_cons]
        have hdec : decide ((cleanOf m) ∉ acc) = false := by simp [hmem]
        simp [hdec]
      · have haddc : addClean acc m = acc ++ [cleanOf m] := by simp [addClean, hc, hmem]
        rw [haddc, ih (acc ++ [cleanOf m])]
        rw [List.map_cons, List.filter_cons]
        have hdec : decide ((cleanOf m) ∉ acc) = true := by simp [hmem]
        rw [hdec, if_pos rfl]
        have hD : specDedupFirst (cleanOf m :: (rest.map cleanOf).filter (fun y => decide (y ∉ acc)))
            = cleanOf m :: specDedupFirst
                (((rest.map cleanOf).filter (fun y => decide (y ∉ acc))).filter
                  (fun y => y != cleanOf m)) := by
          rw [specDedupFirst, if_neg hc]
        rw [hD]
        have hfilters : (rest.map cleanOf).filter (fun y => decide (y ∉ acc ++ [cleanOf m]))
            = ((rest.map cleanOf).filter (fun y => decide (y ∉ acc))).filter
                (fun y => y != cleanOf m) := by
          rw [List.filter_filter]
          apply List.filter_congr
          intro y _
          by_cases hy1 : y = cleanOf m
          · simp [hy1]
          · by_cases hy2 : y ∈ acc <;> simp [hy1, hy2]
        rw [hfilters, List.append_assoc, List.singleton_append]

/-- C6 pattern-stage refinement: the pattern stage equals first-seen
deduplication of the cleaned captures of the three patterns in order. -/
theorem pattern_stage_spec (text : String) :
    pattern_stage text = specDedupFirst (specCleanedMatches text) := by
  rw [pattern_stage_eq_foldl, foldl_addClean_spec]
  have hfil : ∀ l : List String, l.filter (fun y => decide (y ∉ ([] : List String))) = l :=
    fun l => List.filter_eq_self.mpr (by intro a _; simp)
  simp only [specCleanedMatches, List.nil_append, hfil]

/-- The fallback loop collects the first five qualifying sentences. -/
theorem fallback_loop_spec :
    ∀ (l : List (List Char)) (acc : List String), acc.length < 5 →
      fallback_loop l acc = (acc ++ specQual l).take 5 := by
  intro l
  induction l with
  | nil =>
    intro acc hacc
    simp [fallback_loop, specQual, List.take_of_length_le (le_of_lt hacc)]
  | cons s rest ih =>
    intro acc hacc
    by_cases hkw : improvement_keywords.any
        (fun kw => containsSub (s.map Char.toLower) kw.toList) = true
    · by_cases hlen : String.mk (capitalizePy (stripChars s)) ≠ ""
          ∧ 10 < (String.mk (capitalizePy (stripChars s))).length
      · have hq : specQual (s :: rest)
            = String.mk (capitalizePy (stripChars s)) :: specQual rest := by
          simp only [specQual, List.filter_cons, hkw, if_pos, List.map_cons]
          rw [if_pos (decide_eq_true hlen)]
        by_cases hfive : 5 ≤ (acc ++ [String.mk (capitalizePy (stripChars s))]).length
        · have hlen5 : (acc ++ [String.mk (capitalizePy (stripChars s))]).length = 5 := by
            simp only [List.length_append, List.length_cons, List.length_nil] at hfive ⊢
            omega
          have hloop : fallback_loop (s :: rest) acc
              = acc ++ [String.mk (capitalizePy (stripChars s))] := by
            simp only [fallback_loop]
            rw [if_pos hkw, if_pos hlen, if_pos hfive]
          have hsplit : acc ++ String.mk (capitalizePy (stripChars s)) :: specQual rest
              = (acc ++ [String.mk (capitalizePy (stripChars s))]) ++ specQual rest := by
            simp
          rw [hloop, hq, hsplit]
          exact (List.take_left' hlen5).symm
        · have hacc' : (acc ++ [String.mk (capitalizePy (stripChars s))]).length < 5 := by
            omega
          have hloop : fallback_loop (s :: rest) acc
              = fallback_loop rest (acc ++ [String.mk (capitalizePy (stripChars s))]) := by
            simp only [fallback_loop]
            rw [if_pos hkw, if_pos hlen, if_neg hfive]
          rw [hloop, ih _ hacc', hq]
          simp
      · have hq : specQual (s :: rest) = specQual rest := by
          simp only [specQual, List.filter_cons, hkw, if_pos, List.map_cons]
          rw [if_neg (fun h => hlen (of_decide_eq_true h))]
        have hloop : fallback_loop (s :: rest) acc = fallback_loop rest acc := by
          simp only [fallback_loop]
          rw [if_pos hkw, if_neg hlen]
        rw [hloop, ih _ hacc, hq]
    · have hkw' : improvement_keywords.any
          (fun kw => containsSub (s.map Char.toLower) kw.toList) = false := by
        cases hval : improvement_keywords.any
            (fun kw => containsSub (s.map Char.toLower) kw.toList)
        · rfl
        · exact absurd hval hkw
      have hq : specQual (s :: rest) = specQual rest := by
        simp only [specQual, List.filter_cons, hkw']
        rfl
      have hloop : fallback_loop (s :: rest) acc = fallback_loop rest acc := by
        simp only [fallback_loop, hkw', Bool.false_eq_true, if_false]
      rw [hloop, ih _ hacc, hq]

/-- Staging structure of `extract_suggestions`: the fallback runs exactly
when the pattern stage is empty, and the result is truncated to five. -/
theorem extract_suggestions_eq (text : String) :
    extract_suggestions text
      = (if pattern_stage text = [] then specFallback text else pattern_stage text).take 5 := by
  by_cases hempty : pattern_stage text = []
  · have hb : (pattern_stage text).isEmpty = true := by simp [hempty]
    simp only [extract_suggestions, hb, if_true, if_pos hempty]
    rw [fallback_loop_spec (splitSentences text.toList) [] (by norm_num)]
    simp [specFallback, List.take_take]
  · have hb : (pattern_stage text).isEmpty = false := by
      simpa [List.isEmpty_iff] using hempty
    simp only [extract_suggestions, hb, Bool.false_eq_true, if_false, if_neg hempty]

/-- C6: the suggestion list is capped at five entries; the pattern stage
is the first-seen deduplication of the capitalized cleaned captures of the
three patterns in application order; and the sentence fallback (improvement
keyword, capitalized, length > 10) is used exactly when the pattern stage
produced nothing. -/
theorem claim6_suggestion_stages :
    ∀ text : String,
      pattern_stage text = specDedupFirst (specCleanedMatches text)
      ∧ extract_suggestions text
          = (if pattern_stage text = [] then specFallback text else pattern_stage text).take 5
      ∧ (extract_suggestions text).length ≤ 5 := by
  intro text
  refine ⟨pattern_stage_spec text, extract_suggestions_eq text, ?_⟩
  rw [extract_suggestions_eq text]
  exact List.length_take_le 5 _

/-- C1: for every input text the overall score is 70 plus 10 per whole-word
positive occurrence minus 10 per whole-word negative occurrence, clamped to
[0,100]; a text with ten occurrences of a positive word and no negative
words scores exactly 100. -/
theorem claim1_score_formula :
    (∀ text : String,
      calculate_score text =
        min 100 (max 0 (70 + 10 * (count_keyword_matches text POSITIVE_WORDS : Int)
          - 10 * (count_keyword_matches text NEGATIVE_WORDS : Int)))
      ∧ 0 ≤ calculate_score text ∧ calculate_score text ≤ 100)
    ∧ calculate_score ("good good good good good good good good good good") = 100 := by
  constructor
  · intro text
    have h : calculate_score text =
        max 0 (min 100 (70 + (count_keyword_matches text POSITIVE_WORDS : Int) * 10
          - (count_keyword_matches text NEGATIVE_WORDS : Int) * 10)) := rfl
    refine ⟨?_, ?_, ?_⟩ <;> rw [h] <;> omega
  · decide

/-- C3 counterexample: on the scenario input, sentence splitting yields a
single sentence, not two, because the only terminator is at the end of the
text and is not followed by whitespace. -/
theorem claim3_counterexample :
    (splitSentences c3text.toList).length = 1
    ∧ ¬ (splitSentences c3text.toList).length = 2 := by
  decide

/-- C3 amended: the scenario input is kept as one sentence (the whole text,
terminal period retained); it yields exactly one Issue, with severity
"critical" (the sentence contains the critical keyword "bad"), and the
overall score is 70. -/
theorem claim3_scenario :
    splitSentences c3text.toList = [c3text.toList]
    ∧ extract_issues c3text = [{ severity := ("critical"), text := c3text }]
    ∧ ("bad") ∈ SEVERITY_KEYWORDS_critical
    ∧ calculate_score c3text = 70 := by
  refine ⟨by decide, by decide, by decide, by decide⟩

/-- C4 counterexample: a terminator at the very end of the text is not a
split point, so it stays in the sentence and in the emitted Issue's text:
the issue extracted from "It is bad." ends with the period. -/
theorem claim4_counterexample :
    extract_issues c4text = [{ severity := ("critical"), text := c4text }]
    ∧ c4text.toList.getLast? = some '.' := by
  refine ⟨by decide, by decide⟩

/-- Splitting never returns an empty list of sentences. -/
theorem splitSentencesF_ne_nil : ∀ (fuel : Nat) (l : List Char), splitSentencesF fuel l ≠ [] := by
  intro fuel
  induction fuel with
  | zero => intro l; simp [splitSentencesF]
  | succ fuel ih =>
    intro l
    match l with
    | [] => simp [splitSentencesF]
    | c :: rest =>
      by_cases hsplit : (termChar c && headIsSpace rest) = true
      · simp [splitSentencesF, hsplit]
      · cases h : splitSentencesF fuel rest with
        | nil => exact absurd h (ih rest)
        | cons s1 ss => simp [splitSentencesF, hsplit, h, List.modifyHead]

/-- Invariant of the sentence splitter: every produced sentence is free of
a terminator-followed-by-whitespace pair (the punctuation at a split point
is consumed together with the whitespace run), and the first sentence is
either empty or starts with the first character of the input. -/
theorem splitSentencesF_inv : ∀ (fuel : Nat) (l : List Char), l.length ≤ fuel →
    ((splitSentencesF fuel l).all noPunctSpace = true) ∧
    (∀ s, (splitSentencesF fuel l).head? = some s → s = [] ∨ s.head? = l.head?) := by
  intro fuel
  induction fuel with
  | zero =>
    intro l hl
    have hnil : l = [] := List.length_eq_zero.mp (Nat.le_zero.mp hl)
    subst hnil
    exact ⟨by decide, fun s hs => by simp [splitSentencesF] at hs; exact Or.inl hs⟩
  | succ fuel ih =>
    intro l hl
    match l with
    | [] =>
      exact ⟨rfl, fun s hs => by simp [splitSentencesF] at hs; exact Or.inl hs⟩
    | c :: rest =>
      have hlrest : rest.length ≤ fuel := by
        simpa [Nat.succ_le_succ_iff] using hl
      by_cases hsplit : (termChar c && headIsSpace rest) = true
      · have hlen : (rest.dropWhile isSpace).length ≤ fuel :=
          le_trans (List.dropWhile_sublist _).length_le hlrest
        obtain ⟨h1, _⟩ := ih (rest.dropWhile isSpace) hlen
        constructor
        · simp [splitSentencesF, hsplit, noPunctSpace, h1]
        · intro s hs
          simp [splitSentencesF, hsplit] at hs
          exact Or.inl hs
      · obtain ⟨h1, h2⟩ := ih rest hlrest
        cases h : splitSentencesF fuel rest with
        | nil => exact absurd h (splitSentencesF_ne_nil fuel rest)
        | cons s1 ss =>
          have hres : splitSentencesF (fuel + 1) (c :: rest) = (c :: s1) :: ss := by
            simp [splitSentencesF, hsplit, h, List.modifyHead]
          rw [h] at h1 h2
          simp only [List.all_cons, Bool.and_eq_true] at h1
          have hs1 : noPunctSpace (c :: s1) = true := by
            cases s1 with
            | nil => rfl
            | cons d s1' =>
              have hd : (d :: s1' : List Char).head? = rest.head? := by
                rcases h2 (d :: s1') rfl with hemp | hhead
                · exact absurd hemp (by simp)
                · exact hhead
              cases rest with
              | nil => simp at hd
              | cons r rest' =>
                have hdr : d = r := by simpa using hd
                subst hdr
                have hpair : (termChar c && isSpace d) = false := by
                  simpa [headIsSpace] using hsplit
                simp [noPunctSpace, hpair, h1.1]
          constructor
          · simp [hres, List.all_cons, hs1, h1.2]
          · intro s hs
            rw [hres] at hs
            simp at hs
            subst hs
            exact Or.inr rfl

/-- C4 amended: sentence splitting happens at a terminator followed by
whitespace and consumes both, so no emitted sentence contains a
terminator-whitespace pair; however, a terminator at the very end of the
text (not followed by whitespace) is retained in the final sentence and
therefore in the text of an Issue built from it. -/
theorem claim4_split_semantics :
    (∀ text : String, ((splitSentences text.toList).all noPunctSpace) = true)
    ∧ splitSentences ("x is bad. y is bad too.").toList
        = [("x is bad").toList, ("y is bad too.").toList]
    ∧ extract_issues ("x is bad. y is bad too.")
        = [{ severity := ("critical"), text := ("x is bad") },
           { severity := ("critical"), text := ("y is bad too.") }] := by
  refine ⟨fun text => (splitSentencesF_inv _ _ (le_refl _)).1, by decide, by decide⟩

/-- C10: issue detection uses case-insensitive substring containment, so a
text whose words are none of the negative/severity keywords still yields
an issue — "normal" contains the NEGATIVE_WORDS entry "mal" — with
severity "info", while the whole-word overall score stays at the base 70. -/
theorem claim10_substring_flagging :
    extract_issues c10text = [{ severity := ("info"), text := c10text }]
    ∧ containsSub (c10text.toList.map Char.toLower) (("mal").toList) = true
    ∧ ((specWordTokens (c10text.toList.map Char.toLower)).all
        (fun w => decide (String.mk w ∉ NEGATIVE_WORDS
          ∧ String.mk w ∉ SEVERITY_KEYWORDS_critical
          ∧ String.mk w ∉ SEVERITY_KEYWORDS_warning))) = true
    ∧ calculate_score c10text = 70 := by
  refine ⟨by decide, by decide, by decide, by decide⟩

/-- Every issue produced by `extract_issues` carries the severity computed
by `determine_severity` on its own (stripped) sentence text. -/
theorem extract_issues_severity :
    ∀ (t : String) (i : Issue), i ∈ extract_issues t → i.severity = determine_severity i.text := by
  intro t i hi
  simp only [extract_issues, List.mem_filterMap] at hi
  obtain ⟨raw, _, hf⟩ := hi
  split at hf
  · exact absurd hf (by simp)
  · split at hf
    · obtain rfl := Option.some.inj hf
      rfl
    · exact absurd hf (by simp)

/-- C7: every emitted issue's severity is chosen by the first matching
severity list (critical, then warning, else "info"), using
case-insensitive substring containment; the "info" outcome is reachable,
e.g. for a sentence containing the negative word "problem" and no
critical or warning keyword. -/
theorem claim7_severity_rules :
    (∀ text : String, ((extract_issues text).all (fun i =>
      i.severity ==
        (if SEVERITY_KEYWORDS_critical.any
              (fun w => containsSub (i.text.toList.map Char.toLower) w.toList) then ("critical")
         else if SEVERITY_KEYWORDS_warning.any
              (fun w => containsSub (i.text.toList.map Char.toLower) w.toList) then ("warning")
         else ("info")))) = true)
    ∧ extract_issues ("There is a problem here")
        = [{ severity := ("info"), text := ("There is a problem here") }]
    ∧ ("problem") ∈ NEGATIVE_WORDS
    ∧ containsSub (("There is a problem here").toList.map Char.toLower) (("problem").toList) = true
    ∧ ((SEVERITY_KEYWORDS_critical ++ SEVERITY_KEYWORDS_warning).all
        (fun w => !containsSub (("There is a problem here").toList.map Char.toLower) w.toList)) = true := by
  refine ⟨?_, by decide, by decide, by decide, by decide⟩
  intro text
  rw [List.all_eq_true]
  intro i hi
  rw [extract_issues_severity text i hi]
  simp [determine_severity]

/-- The document-wide ratio term of the category score is at most 50. -/
theorem ratio_le_50 (P N : Nat) : 50 * P / (P + N) ≤ 50 := by
  by_cases h : 0 < P + N
  · have h1 : 50 * P ≤ 50 * (P + N) := by omega
    have h2 : 50 * P / (P + N) ≤ 50 * (P + N) / (P + N) := Nat.div_le_div_right h1
    have h3 : 50 * (P + N) / (P + N) = 50 := Nat.mul_div_cancel 50 h
    omega
  · have hz : P + N = 0 := by omega
    simp [hz]

/-- The unclamped category score always lies in [50, 100]. -/
theorem specCatScore_bounds (m P N : Nat) :
    50 ≤ (if m = 0 then 75 else if 0 < P + N then 50 + 50 * P / (P + N) else 70)
    ∧ (if m = 0 then 75 else if 0 < P + N then 50 + 50 * P / (P + N) else 70) ≤ 100 := by
  have hd : 50 * P / (P + N) ≤ 50 := ratio_le_50 P N
  have h1 : 50 ≤ 50 + 50 * P / (P + N) := Nat.le_add_right 50 _
  have h2 : 50 + 50 * P / (P + N) ≤ 100 := by
    have h3 := Nat.add_le_add_left hd 50
    simpa using h3
  constructor
  · split
    · omega
    · split
      · exact h1
      · omega
  · split
    · omega
    · split
      · exact h2
      · omega

/-- The clamp inside `calculate_category_scores` never changes the value:
the per-category score is 75 with no mentions, otherwise
`50 + 50*P/(P+N)` when the text has sentiment words and 70 when not. -/
theorem calculate_category_scores_eq (text : String) :
    calculate_category_scores text = CATEGORY_KEYWORDS.map (fun ck =>
      (ck.1,
        if count_keyword_matches text ck.2 = 0 then 75
        else if 0 < count_keyword_matches text POSITIVE_WORDS
            + count_keyword_matches text NEGATIVE_WORDS then
          50 + 50 * count_keyword_matches text POSITIVE_WORDS /
            (count_keyword_matches text POSITIVE_WORDS + count_keyword_matches text NEGATIVE_WORDS)
        else 70)) := by
  unfold calculate_category_scores
  apply List.map_congr_left
  intro ck _
  dsimp only
  by_cases hm : count_keyword_matches text ck.2 = 0
  · simp [hm]
  · rw [if_neg hm, if_neg hm]
    by_cases hpn : 0 < count_keyword_matches text POSITIVE_WORDS
        + count_keyword_matches text NEGATIVE_WORDS
    · rw [if_pos hpn]
      have hd := ratio_le_50 (count_keyword_matches text POSITIVE_WORDS)
        (count_keyword_matches text NEGATIVE_WORDS)
      set d := 50 * count_keyword_matches text POSITIVE_WORDS /
        (count_keyword_matches text POSITIVE_WORDS + count_keyword_matches text NEGATIVE_WORDS)
      have h2 : 50 + d ≤ 100 := by
        have h3 := Nat.add_le_add_left hd 50
        simpa using h3
      congr 1
      rw [min_eq_right h2]
      exact Nat.zero_max _
    · rw [if_neg hpn]
      congr 1

/-- C2: the category-score map has exactly the four fixed categories in
order; a category scores 75 with zero mentions, `50 + 50*P/(P+N)` (the
integer part of `50 + ratio*50`) when it has mentions and the text has
sentiment words, 70 when it has mentions but no sentiment words; every
value is at most 100 (and trivially at least 0). -/
theorem claim2_category_scores :
    ∀ text : String,
      (calculate_category_scores text).map Prod.fst
        = [("contrast"), ("spacing"), ("alignment"), ("hierarchy")]
      ∧ calculate_category_scores text = CATEGORY_KEYWORDS.map (fun ck =>
          (ck.1,
            if count_keyword_matches text ck.2 = 0 then 75
            else if 0 < count_keyword_matches text POSITIVE_WORDS
                + count_keyword_matches text NEGATIVE_WORDS then
              50 + 50 * count_keyword_matches text POSITIVE_WORDS /
                (count_keyword_matches text POSITIVE_WORDS
                  + count_keyword_matches text NEGATIVE_WORDS)
            else 70))
      ∧ ((calculate_category_scores text).all (fun p => decide (p.2 ≤ 100))) = true := by
  intro text
  refine ⟨?_, calculate_category_scores_eq text, ?_⟩
  · rw [calculate_category_scores_eq]
    rfl
  · rw [calculate_category_scores_eq, List.all_eq_true]
    intro x hx
    rw [List.mem_map] at hx
    obtain ⟨ck, _, rfl⟩ := hx
    simpa using (specCatScore_bounds (count_keyword_matches text ck.2)
      (count_keyword_matches text POSITIVE_WORDS) (count_keyword_matches text NEGATIVE_WORDS)).2

/-- C9: every category score is at least 50 (and at most 100), so the
lower clamp bound 0 is never reached: the score is 75 with no mentions,
70 with mentions but no sentiment words, and `50 + 50*P/(P+N)` in [50,100]
otherwise. -/
theorem claim9_category_lower_bound :
    ∀ text : String,
      ((calculate_category_scores text).all (fun p => decide (50 ≤ p.2 ∧ p.2 ≤ 100))) = true
      ∧ calculate_category_scores text = CATEGORY_KEYWORDS.map (fun ck =>
          (ck.1,
            if count_keyword_matches text ck.2 = 0 then 75
            else if count_keyword_matches text POSITIVE_WORDS
                + count_keyword_matches text NEGATIVE_WORDS = 0 then 70
            else 50 + 50 * count_keyword_matches text POSITIVE_WORDS /
              (count_keyword_matches text POSITIVE_WORDS
                + count_keyword_matches text NEGATIVE_WORDS))) := by
  intro text
  constructor
  · rw [calculate_category_scores_eq, List.all_eq_true]
    intro x hx
    rw [List.mem_map] at hx
    obtain ⟨ck, _, rfl⟩ := hx
    simpa using specCatScore_bounds (count_keyword_matches text ck.2)
      (count_keyword_matches text POSITIVE_WORDS) (count_keyword_matches text NEGATIVE_WORDS)
  · rw [calculate_category_scores_eq]
    apply List.map_congr_left
    intro ck _
    dsimp only
    by_cases hm : count_keyword_matches text ck.2 = 0
    · simp [hm]
    · rw [if_neg hm, if_neg hm]
      by_cases hpn : count_keyword_matches text POSITIVE_WORDS
          + count_keyword_matches text NEGATIVE_WORDS = 0
      · rw [if_neg (by omega), if_pos hpn]
      · rw [if_pos (by omega), if_neg hpn]

/-- C8: on the empty input the pipeline returns score 70, all four
categories at 75, no issues, no suggestions, and a non-empty formatted
report that shows the overall-score line but has no issues or suggestions
section. -/
theorem claim8_empty_input :
    (analyze_text ("")).score = 70
    ∧ (analyze_text ("")).categories =
        [(("contrast"), 75), (("spacing"), 75), (("alignment"), 75), (("hierarchy"), 75)]
    ∧ (analyze_text ("")).issues = []
    ∧ (analyze_text ("")).suggestions = []
    ∧ ¬ (analyze_text ("")).formatted_output = ""
    ∧ containsSub (analyze_text ("")).formatted_output.toList (("Score General: **70/100**").toList) = true
    ∧ containsSub (analyze_text ("")).formatted_output.toList (("Issues Encontrados").toList) = false
    ∧ containsSub (analyze_text ("")).formatted_output.toList (("Sugerencias").toList) = false := by
  refine ⟨by decide, by decide, by decide, by decide, by decide, by decide, by decide, by decide⟩
